import Mathlib

/-!
Shallow embedding of the DocuFresh marker-substitution engine
(`src/index.js`).

Strings are modelled as lists of characters (`Str`).  The engine's own
functions (`process`, `replaceCustomData`, `replaceBuiltInMarkers`,
`getBuiltInMarkers`, `registerMarker`, the text markers `capitalize`,
`upper`, `lower`) are translated from the source.  The JavaScript host
primitives the source calls are modelled explicitly, restricted to the
fragment the source can exercise:

* `parseSeq`/`regexCompile` model the `RegExp` constructor on patterns of
  the shape `{{`&nbsp;key&nbsp;`}}` that `replaceCustomData` builds.  Plain
  characters (including braces not forming a quantifier) compile to
  literals, `.` to the any-character token, and an unterminated `(` raises
  the SyntaxError that the real constructor raises.  Constructs the
  repository never builds through its claims (balanced groups, classes,
  quantifier braces, escapes, anchors, alternation) are outside the
  modelled fragment and reported as errors; the universal theorems below
  restrict keys to `safeKeyChar` characters, on which the model agrees
  with the host semantics.
* `scanRe`/`regexReplaceAll` model `String.prototype.replace` with a
  global regex and a string replacement, including the `$$`/`$&`/dollar-
  backquote/dollar-quote substitution patterns of GetSubstitution.
* `rfs`/`replaceFirstStr` model `String.prototype.replace` with a string
  search value (first occurrence only, same substitution patterns).
* `splitOnC`, `joinC`, `trimS` model `split`, `join` and `trim` on
  single-character separators; `jsCapitalize` and the case maps use the
  ASCII case conversion, which agrees with the host on the ASCII texts
  the claims exercise.
* `lookupM` models the property access `this.markers[markerName]`: the
  registry's own entries first, then the properties an object literal
  inherits from `Object.prototype` (`objectProtoFns`), which the
  unguarded access of the source also finds and invokes.
* Built-in markers whose output depends on wall-clock time, locale,
  floating-point formatting or randomness are abstracted as fields of a
  `MarkerEnv`; no claim depends on their outputs, and every theorem about
  the built-in registry holds for an arbitrary environment.

Scanning functions are written with an explicit fuel argument (initialised
to the input length by their wrappers) so that every definition is
structurally recursive and evaluates by kernel reduction.
-/

set_option maxRecDepth 8192

deriving instance DecidableEq for Except

namespace DocuFresh

/-- Strings of the JavaScript program, modelled as lists of characters. -/
abbrev Str := List Char

/-- View of a Lean string literal as a model string. -/
def strL (s : String) : Str := s.toList

/-- Characters removed by the model of `String.prototype.trim`: the
whitespace and line-terminator characters of the JS definition (ASCII
whitespace, NBSP, LS, PS, BOM; other Unicode `Zs` characters never occur
in the claims). -/
def jsWs (c : Char) : Bool :=
  c == ' ' || c == '\t' || c == '\n' || c == '\r' ||
  c == Char.ofNat 11 || c == Char.ofNat 12 || c == Char.ofNat 160 ||
  c == Char.ofNat 0x2028 || c == Char.ofNat 0x2029 || c == Char.ofNat 0xfeff

/-- Model of `String.prototype.trim`. -/
def trimS (s : Str) : Str :=
  ((s.dropWhile jsWs).reverse.dropWhile jsWs).reverse

/-- Model of `String.prototype.split` with a single-character separator:
always returns a nonempty list of parts; the empty string splits to one
empty part, as in JS. -/
def splitOnC (sep : Char) : Str → List Str
  | [] => [[]]
  | c :: r =>
    match splitOnC sep r with
    | [] => [[c]]
    | h :: t => if c = sep then [] :: h :: t else (c :: h) :: t

/-- Model of `Array.prototype.join` with a single-character separator. -/
def joinC (sep : Char) : List Str → Str
  | [] => []
  | [x] => x
  | x :: y :: t => x ++ sep :: joinC sep (y :: t)

/-- Tokens of the compiled regular-expression fragment: literal
characters and the any-character dot. -/
inductive RTok
  | lit (c : Char)
  | dot
deriving DecidableEq

/-- Regex metacharacters whose syntax the model does not cover (the
source never builds them through the claims). -/
def unmodChar (c : Char) : Bool :=
  c == '*' || c == '+' || c == '?' || c == '[' || c == ']' ||
  c == '|' || c == '^' || c == '$' || c == '\\'

/-- Fuel-indexed parser modelling the `RegExp` constructor on the
fragment described in the module docstring.  An unterminated group
raises the same SyntaxError as the host constructor. -/
def parseSeq : Nat → Str → Except String (List RTok)
  | _, [] => .ok []
  | 0, _ :: _ => .error "out of fuel"
  | fuel + 1, c :: rest =>
    if c = '(' then
      if rest.contains ')' then .error "group syntax outside the modelled fragment"
      else .error "Invalid regular expression: Unterminated group"
    else if c = ')' then .error "Invalid regular expression: Unmatched close parenthesis"
    else if c = '.' then
      match parseSeq fuel rest with
      | .ok ts => .ok (.dot :: ts)
      | .error e => .error e
    else if unmodChar c then .error "regex construct outside the modelled fragment"
    else
      match parseSeq fuel rest with
      | .ok ts => .ok (.lit c :: ts)
      | .error e => .error e

/-- Model of the `RegExp` constructor: parse with fuel equal to the
pattern length (each step consumes one character). -/
def regexCompile (p : Str) : Except String (List RTok) := parseSeq p.length p

/-- Characters matched by the regex dot: anything except a line
terminator. -/
def dotMatch (c : Char) : Bool :=
  !(c == '\n' || c == '\r' || c == Char.ofNat 0x2028 || c == Char.ofNat 0x2029)

/-- Anchored matching of a token sequence against the front of a string;
returns the remainder on success. -/
def rmatchT : List RTok → Str → Option Str
  | [], s => some s
  | .lit c :: ts, x :: s => if x = c then rmatchT ts s else none
  | .dot :: ts, x :: s => if dotMatch x then rmatchT ts s else none
  | _ :: _, [] => none

/-- Model of GetSubstitution: expansion of dollar patterns in a
replacement string.  `matched` is the matched substring, `pre` the text
before the match, `suf` the text after it (all with respect to the
string being searched).  Codepoints 96 and 39 are the backquote and
quote characters of the dollar-prefix patterns. -/
def expandRepl (matched pre suf : Str) : Str → Str
  | [] => []
  | c :: r =>
    if c = '$' then
      match r with
      | [] => ['$']
      | d :: r2 =>
        if d = '$' then '$' :: expandRepl matched pre suf r2
        else if d = '&' then matched ++ expandRepl matched pre suf r2
        else if d = Char.ofNat 96 then pre ++ expandRepl matched pre suf r2
        else if d = Char.ofNat 39 then suf ++ expandRepl matched pre suf r2
        else '$' :: d :: expandRepl matched pre suf r2
    else c :: expandRepl matched pre suf r

/-- Fuel-indexed scanner for a global regex replace: walks the subject
left to right, replacing each non-overlapping match by the expansion of
the replacement; matches are found in the original subject only (output
is never rescanned).  `pre` is the already-consumed prefix. -/
def scanRe (ts : List RTok) (repl : Str) : Nat → Str → Str → Str
  | 0, _, s => s
  | fuel + 1, pre, s =>
    match rmatchT ts s with
    | some rem =>
      let matched := s.take (s.length - rem.length)
      if matched = [] then
        match s with
        | [] => expandRepl [] pre [] repl
        | c :: rest => expandRepl [] pre s repl ++ c :: scanRe ts repl fuel (pre ++ [c]) rest
      else expandRepl matched pre rem repl ++ scanRe ts repl fuel (pre ++ matched) rem
    | none =>
      match s with
      | [] => []
      | c :: rest => c :: scanRe ts repl fuel (pre ++ [c]) rest

/-- Model of `String.prototype.replace` with a global regex and a string
replacement (source line 43). -/
def regexReplaceAll (ts : List RTok) (repl s : Str) : Str :=
  scanRe ts repl (s.length + 1) [] s

/-- Whether the first argument is a prefix of the second. -/
def startsWith : Str → Str → Bool
  | [], _ => true
  | _ :: _, [] => false
  | a :: x, b :: y => if a = b then startsWith x y else false

/-- Scanning loop of `String.prototype.replace` with a string search
value: replaces the first occurrence only.  `acc` holds the reversed
consumed prefix. -/
def rfs (pat repl : Str) : Str → Str → Str
  | acc, [] => acc.reverse
  | acc, c :: rest =>
    if startsWith pat (c :: rest) then
      acc.reverse ++ expandRepl pat acc.reverse ((c :: rest).drop pat.length) repl ++
        (c :: rest).drop pat.length
    else rfs pat repl (c :: acc) rest

/-- Model of `String.prototype.replace` with a string search value
(source line 78): first occurrence only, replacement subject to dollar
expansion. -/
def replaceFirstStr (pat repl s : Str) : Str :=
  if pat = [] then expandRepl [] [] s repl ++ s
  else rfs pat repl [] s

/-- The marker text `{{` ++ s ++ `}}`, as built by source lines 42
and 58-62. -/
def braced (s : Str) : Str := '{' :: '{' :: (s ++ ['}', '}'])

/-- Fuel-indexed scanner for the built-in marker pattern
(double-brace-delimited, content one or more non-close-brace characters,
source line 58): returns the matches of `matchAll` in order, each as
(full marker text, content).  A failed attempt advances one position;
a match continues after its end. -/
def findMarkersF : Nat → Str → List (Str × Str)
  | 0, _ => []
  | _ + 1, [] => []
  | fuel + 1, c :: s =>
    if c = '{' then
      match s with
      | [] => []
      | c2 :: r =>
        if c2 = '{' then
          let content := r.takeWhile (fun x => x != '}')
          let rest := r.drop content.length
          if content ≠ [] ∧ rest.take 2 = ['}', '}'] then
            (braced content, content) :: findMarkersF fuel (rest.drop 2)
          else findMarkersF fuel s
        else findMarkersF fuel s
    else findMarkersF fuel s

/-- All marker matches of a text (source line 59). -/
def findMarkers (t : Str) : List (Str × Str) := findMarkersF t.length t

/-- Marker name: the text before the first colon, trimmed (source
lines 66-67). -/
def markerNameOf (content : Str) : Str := trimS ((splitOnC ':' content).headD [])

/-- Parameter string: everything after the first colon, rejoined with
colons (source line 69). -/
def paramStringOf (content : Str) : Str := joinC ':' ((splitOnC ':' content).tail)

/-- Parameter list: comma-split of the parameter string, each trimmed;
an empty (falsy) parameter string yields no parameters (source
line 70). -/
def paramsOf (content : Str) : List Str :=
  let ps := paramStringOf content
  if ps = [] then [] else (splitOnC ',' ps).map trimS

/-- A marker function: ordered string parameters to a string, or a
thrown error message. -/
abbrev MarkerFn := List Str → Except String Str

/-- The marker registry: name-to-function entries; the object field
lookup of the source is modelled by first-match association lookup. -/
abbrev Registry := List (Str × MarkerFn)

/-- Association lookup over a registry's own entries. -/
def lookupOwn : Registry → Str → Option MarkerFn
  | [], _ => none
  | (n, f) :: r, name => if name = n then some f else lookupOwn r name

/-- Modelled from JS host semantics: the properties every object
literal inherits from `Object.prototype`.  Source line 73 reads
`this.markers[markerName]` with an unguarded property access, so when
no own entry matches, the access finds these inherited values; all of
them are truthy, so the source invokes them as bare functions (the
class body is strict mode, hence with an undefined receiver).
`toString` returns the undefined-tag string; `constructor` (the
`Object` function) returns a fresh empty object, or wraps its first
argument, which the replacement conversion turns back into that text;
`isPrototypeOf` returns `false` for a non-object argument (stringified
by the replacement conversion); reading a bare `__proto__` yields the
prototype object itself, which is not callable; the remaining methods
convert their undefined receiver to an object and throw.  Every thrown
TypeError is absorbed by the catch at source line 79. -/
def objectProtoFns : Registry :=
  [ (strL ("constructor"), fun ps =>
      match ps with
      | [] => .ok (strL ("[object Object]"))
      | s :: _ => .ok s),
    (strL ("hasOwnProperty"), fun _ =>
      .error "TypeError: Cannot convert undefined or null to object"),
    (strL ("isPrototypeOf"), fun _ => .ok (strL ("false"))),
    (strL ("propertyIsEnumerable"), fun _ =>
      .error "TypeError: Cannot convert undefined or null to object"),
    (strL ("toLocaleString"), fun _ =>
      .error "TypeError: Cannot read properties of undefined - reading toString"),
    (strL ("toString"), fun _ => .ok (strL ("[object Undefined]"))),
    (strL ("valueOf"), fun _ =>
      .error "TypeError: Cannot convert undefined or null to object"),
    (strL ("__proto__"), fun _ => .error "TypeError: markerFn is not a function"),
    (strL ("__defineGetter__"), fun _ =>
      .error "TypeError: Cannot convert undefined or null to object"),
    (strL ("__defineSetter__"), fun _ =>
      .error "TypeError: Cannot convert undefined or null to object"),
    (strL ("__lookupGetter__"), fun _ =>
      .error "TypeError: Cannot convert undefined or null to object"),
    (strL ("__lookupSetter__"), fun _ =>
      .error "TypeError: Cannot convert undefined or null to object") ]

/-- Model of the property access `this.markers[markerName]` (source
line 73): own entries first (so later registrations shadow earlier
ones, and own entries shadow inherited ones), then the properties the
markers object literal inherits from `Object.prototype`. -/
def lookupM (markers : Registry) (name : Str) : Option MarkerFn :=
  match lookupOwn markers name with
  | some f => some f
  | none => lookupOwn objectProtoFns name

/-- Source `registerMarker` (lines 348-350): with first-match lookup,
prepending an entry is insert-or-overwrite. -/
def registerMarker (markers : Registry) (name : Str) (fn : MarkerFn) : Registry :=
  (name, fn) :: markers

/-- The match loop of `replaceBuiltInMarkers` (source lines 61-85):
matches come from the original text, replacement happens in the evolving
result; an unknown name is skipped; a throwing function leaves the
result unchanged and appends a console log entry (marker text, message);
the loop itself never fails. -/
def processMatches (markers : Registry) : List (Str × Str) → Str → Str × List (Str × String)
  | [], result => (result, [])
  | (full, content) :: ms, result =>
    match lookupM markers (markerNameOf content) with
    | none => processMatches markers ms result
    | some fn =>
      match fn (paramsOf content) with
      | .ok repl => processMatches markers ms (replaceFirstStr full repl result)
      | .error msg =>
        let (r, log) := processMatches markers ms result
        (r, (full, msg) :: log)

/-- Source `replaceBuiltInMarkers` (lines 54-88), paired with the
console log it produces. -/
def replaceBuiltInMarkers (markers : Registry) (text : Str) : Str × List (Str × String) :=
  processMatches markers (findMarkers text) text

/-- Source `replaceCustomData` (lines 37-47): for each entry in order,
compile the pattern `{{key}}` (the key is interpolated unescaped) and
globally replace; a compilation error propagates as the thrown
SyntaxError. -/
def replaceCustomData : List (Str × Str) → Str → Except String Str
  | [], text => .ok text
  | (key, value) :: rest, text =>
    match regexCompile (braced key) with
    | .error e => .error e
    | .ok ts => replaceCustomData rest (regexReplaceAll ts value text)

/-- Source `process` (lines 21-31): custom-data pass, then built-in
pass on its output.  The registry argument models the instance state
`this.markers`; the returned log models the console diagnostics. -/
def process (markers : Registry) (data : List (Str × Str)) (text : Str) :
    Except String (Str × List (Str × String)) :=
  match replaceCustomData data text with
  | .error e => .error e
  | .ok r1 => .ok (replaceBuiltInMarkers markers r1)

/-- Source `capitalize` core (line 312): first character uppercased,
remainder lowercased (ASCII case maps). -/
def jsCapitalize : Str → Str
  | [] => []
  | c :: r => Char.toUpper c :: r.map Char.toLower

/-- Built-in marker `capitalize` (source lines 311-313): called with no
parameter, `text` is `undefined` and `charAt` throws. -/
def capitalize : MarkerFn
  | [] => .error "TypeError: Cannot read properties of undefined - reading charAt"
  | t :: _ => .ok (jsCapitalize t)

/-- Built-in marker `upper` (source lines 319-321). -/
def upper : MarkerFn
  | [] => .error "TypeError: Cannot read properties of undefined - reading toUpperCase"
  | t :: _ => .ok (t.map Char.toUpper)

/-- Built-in marker `lower` (source lines 327-329). -/
def lower : MarkerFn
  | [] => .error "TypeError: Cannot read properties of undefined - reading toLowerCase"
  | t :: _ => .ok (t.map Char.toLower)

/-- Behaviour of the built-in markers whose output depends on the host
(wall-clock time, locale, floating-point formatting, randomness),
abstracted as parameters; no claim depends on their outputs. -/
structure MarkerEnv where
  current_year : MarkerFn
  current_month : MarkerFn
  current_date : MarkerFn
  current_time : MarkerFn
  days_since : MarkerFn
  days_until : MarkerFn
  years_since : MarkerFn
  age : MarkerFn
  relative_time : MarkerFn
  timestamp : MarkerFn
  add : MarkerFn
  subtract : MarkerFn
  multiply : MarkerFn
  divide : MarkerFn
  random : MarkerFn
  format_number : MarkerFn

/-- Source `getBuiltInMarkers` (lines 94-339): the nineteen built-in
entries in source order; the three pure text markers are implemented,
the rest come from the environment. -/
def getBuiltInMarkers (env : MarkerEnv) : Registry :=
  [ (strL ("current_year"), env.current_year),
    (strL ("current_month"), env.current_month),
    (strL ("current_date"), env.current_date),
    (strL ("current_time"), env.current_time),
    (strL ("days_since"), env.days_since),
    (strL ("days_until"), env.days_until),
    (strL ("years_since"), env.years_since),
    (strL ("age"), env.age),
    (strL ("relative_time"), env.relative_time),
    (strL ("timestamp"), env.timestamp),
    (strL ("add"), env.add),
    (strL ("subtract"), env.subtract),
    (strL ("multiply"), env.multiply),
    (strL ("divide"), env.divide),
    (strL ("random"), env.random),
    (strL ("capitalize"), capitalize),
    (strL ("upper"), upper),
    (strL ("lower"), lower),
    (strL ("format_number"), env.format_number) ]

/-- A concrete environment for closed statements: every abstracted
marker returns the empty string. -/
def trivEnv : MarkerEnv :=
  { current_year := fun _ => .ok [], current_month := fun _ => .ok [],
    current_date := fun _ => .ok [], current_time := fun _ => .ok [],
    days_since := fun _ => .ok [], days_until := fun _ => .ok [],
    years_since := fun _ => .ok [], age := fun _ => .ok [],
    relative_time := fun _ => .ok [], timestamp := fun _ => .ok [],
    add := fun _ => .ok [], subtract := fun _ => .ok [],
    multiply := fun _ => .ok [], divide := fun _ => .ok [],
    random := fun _ => .ok [], format_number := fun _ => .ok [] }

/-- Characters on which the regex model provably coincides with the host
semantics when interpolated into a `{{key}}` pattern: letters,
underscore, space, hyphen. -/
def safeChars : Str :=
  strL ("abcdefghijklmnopqrstuvwxyzABCDEFGHIJKLMNOPQRSTUVWXYZ_ -")

/-- Membership in `safeChars`. -/
def safeKeyChar (c : Char) : Bool := decide (c ∈ safeChars)

/-- Characters the regex parser compiles to themselves. -/
def plainChar (c : Char) : Bool :=
  decide (c ≠ '(' ∧ c ≠ ')' ∧ c ≠ '.' ∧ unmodChar c = false)

/-- The separator interleaving of segments: the text in which the
separator occurs exactly between consecutive segments. -/
def interc (sep : Str) : List Str → Str
  | [] => []
  | [s] => s
  | s :: t :: rest => s ++ sep ++ interc sep (t :: rest)

/-! ### Lemmas about the host-primitive models -/

theorem safe_plain_and_ne {c : Char} (h : safeKeyChar c = true) :
    plainChar c = true ∧ c ≠ '{' ∧ c ≠ '}' ∧ c ≠ '$' := by
  have hm : c ∈ safeChars := of_decide_eq_true h
  have hall : safeChars.all
      (fun c => plainChar c && (decide (c ≠ '{') && (decide (c ≠ '}') && decide (c ≠ '$'))))
      = true := by decide
  have hc := List.all_eq_true.mp hall c hm
  simp only [Bool.and_eq_true, decide_eq_true_eq] at hc
  exact ⟨hc.1, hc.2.1, hc.2.2.1, hc.2.2.2⟩

theorem parseSeq_plain :
    ∀ (s : Str) (fuel : Nat), s.all plainChar = true → s.length ≤ fuel →
      parseSeq fuel s = .ok (s.map RTok.lit) := by
  intro s
  induction s with
  | nil => intro fuel _ _; cases fuel <;> rfl
  | cons c r ih =>
    intro fuel hall hlen
    match fuel with
    | 0 => simp at hlen
    | f + 1 =>
      have hc : plainChar c = true ∧ r.all plainChar = true := by
        simpa [List.all_cons] using hall
      have hp := of_decide_eq_true hc.1
      have hrec := ih f hc.2 (by simpa using Nat.lt_succ_iff.mp (Nat.lt_of_lt_of_le (Nat.lt_of_lt_of_le (Nat.lt_succ_self _) hlen) (Nat.le_refl _)))
      simp only [parseSeq, if_neg hp.1, if_neg hp.2.1, if_neg hp.2.2.1]
      rw [if_neg (by simp [hp.2.2.2]), hrec]
      rfl

theorem compile_braced_safe {k : Str} (h : k.all safeKeyChar = true) :
    regexCompile (braced k) = .ok ((braced k).map RTok.lit) := by
  have hplain : (braced k).all plainChar = true := by
    have hk : ∀ x ∈ k, plainChar x = true := by
      intro x hx
      exact (safe_plain_and_ne (List.all_eq_true.mp h x hx)).1
    simp only [braced, List.all_cons, List.all_append, Bool.and_eq_true]
    refine ⟨by decide, by decide, List.all_eq_true.mpr hk, by decide⟩
  exact parseSeq_plain (braced k) (braced k).length hplain (Nat.le_refl _)

theorem expandRepl_noDollar (m p s : Str) :
    ∀ r : Str, '$' ∉ r → expandRepl m p s r = r := by
  intro r
  induction r with
  | nil => intro _; rfl
  | cons c r2 ih =>
    intro h
    have hc : c ≠ '$' := fun hh => h (hh ▸ List.mem_cons_self c r2)
    have hr : '$' ∉ r2 := fun hh => h (List.mem_cons_of_mem c hh)
    rw [expandRepl.eq_def]
    dsimp only
    rw [if_neg hc, ih hr]

theorem rmatchT_lit_append (p t : Str) :
    rmatchT (p.map RTok.lit) (p ++ t) = some t := by
  induction p with
  | nil => rfl
  | cons c q ih =>
    simp only [List.map_cons, List.cons_append, rmatchT, if_pos rfl]
    exact ih

theorem startsWith_self_append (p t : Str) : startsWith p (p ++ t) = true := by
  induction p with
  | nil => rfl
  | cons c q ih =>
    simp only [List.cons_append, startsWith, if_pos rfl]
    exact ih

theorem rmatchT_lit_ne {x c : Char} (ts : List RTok) (s : Str) (h : x ≠ c) :
    rmatchT (RTok.lit c :: ts) (x :: s) = none := by
  simp only [rmatchT, if_neg h]

theorem scanRe_nomatch (ts0 : List RTok) (repl : Str) :
    ∀ (fuel : Nat) (pre s : Str), '{' ∉ s →
      scanRe (RTok.lit '{' :: ts0) repl fuel pre s = s := by
  intro fuel
  induction fuel with
  | zero => intro pre s _; rfl
  | succ f ih =>
    intro pre s hs
    cases s with
    | nil => rfl
    | cons c rest =>
      have hc : c ≠ '{' := fun hh => hs (hh ▸ List.mem_cons_self c rest)
      have hr : '{' ∉ rest := fun hh => hs (List.mem_cons_of_mem c hh)
      rw [scanRe.eq_def]
      dsimp only
      rw [rmatchT_lit_ne _ _ hc]
      dsimp only
      rw [ih (pre ++ [c]) rest hr]

theorem scanRe_skip (ts0 : List RTok) (repl : Str) :
    ∀ (a : Str) (fuel : Nat) (pre t : Str), '{' ∉ a →
      scanRe (RTok.lit '{' :: ts0) repl (a.length + fuel) pre (a ++ t) =
        a ++ scanRe (RTok.lit '{' :: ts0) repl fuel (pre ++ a) t := by
  intro a
  induction a with
  | nil => intro fuel pre t _; simp
  | cons c a2 ih =>
    intro fuel pre t ha
    have hc : c ≠ '{' := fun hh => ha (hh ▸ List.mem_cons_self c a2)
    have ha2 : '{' ∉ a2 := fun hh => ha (List.mem_cons_of_mem c hh)
    have hfuel : (c :: a2).length + fuel = (a2.length + fuel) + 1 := by
      simp [List.length_cons]; omega
    rw [hfuel]
    simp only [List.cons_append]
    rw [scanRe.eq_def]
    dsimp only
    rw [rmatchT_lit_ne _ _ hc]
    dsimp only
    rw [ih fuel (pre ++ [c]) t ha2]
    simp [List.append_assoc]

theorem scanRe_match (c0 : Char) (q repl t : Str) (fuel : Nat) (pre : Str)
    (hrep : '$' ∉ repl) :
    scanRe ((c0 :: q).map RTok.lit) repl (fuel + 1) pre ((c0 :: q) ++ t) =
      repl ++ scanRe ((c0 :: q).map RTok.lit) repl fuel (pre ++ (c0 :: q)) t := by
  rw [scanRe.eq_def]
  dsimp only
  rw [rmatchT_lit_append]
  dsimp only
  have hlen : ((c0 :: q) ++ t).length - t.length = (c0 :: q).length := by
    simp [List.length_append, List.length_cons]; omega
  rw [hlen, List.take_left]
  rw [if_neg (List.cons_ne_nil c0 q)]
  rw [expandRepl_noDollar _ _ _ repl hrep]

theorem scanRe_interc (k repl : Str) (hrep : '$' ∉ repl) :
    ∀ (segs : List Str) (fuel : Nat) (pre : Str), segs ≠ [] →
      (∀ x ∈ segs, '{' ∉ x) → (interc (braced k) segs).length < fuel →
      scanRe ((braced k).map RTok.lit) repl fuel pre (interc (braced k) segs) =
        interc repl segs := by
  have hts : (braced k).map RTok.lit =
      RTok.lit '{' :: (('{' :: (k ++ ['}', '}'])).map RTok.lit) := rfl
  have hbr : braced k = '{' :: ('{' :: (k ++ ['}', '}'])) := rfl
  intro segs
  induction segs with
  | nil => intro fuel pre h; exact absurd rfl h
  | cons s0 rest ih =>
    intro fuel pre _ hmem hfuel
    cases rest with
    | nil =>
      have hi : interc (braced k) [s0] = s0 := rfl
      have hi2 : interc repl [s0] = s0 := rfl
      rw [hi, hi2, hts]
      exact scanRe_nomatch _ repl fuel pre s0 (hmem s0 (List.mem_cons_self _ _))
    | cons s1 rest2 =>
      have hi : interc (braced k) (s0 :: s1 :: rest2) =
          s0 ++ (braced k ++ interc (braced k) (s1 :: rest2)) := by
        rw [interc]; simp [List.append_assoc]
      have hs0 : '{' ∉ s0 := hmem s0 (List.mem_cons_self _ _)
      have hmem2 : ∀ x ∈ s1 :: rest2, '{' ∉ x :=
        fun x hx => hmem x (List.mem_cons_of_mem s0 hx)
      have hlenfuel : (interc (braced k) (s0 :: s1 :: rest2)).length < fuel := hfuel
      rw [hi] at hlenfuel ⊢
      have hlen2 : s0.length + (braced k ++ interc (braced k) (s1 :: rest2)).length < fuel := by
        simpa [List.length_append] using hlenfuel
      have hf1 : fuel = s0.length + (fuel - s0.length) := by omega
      rw [hf1, hts, scanRe_skip _ repl s0 (fuel - s0.length) pre _ hs0]
      have hf2 : fuel - s0.length = ((fuel - s0.length) - 1) + 1 := by
        have hb : 0 < (braced k).length := by simp [braced]
        omega
      rw [hf2, ← hts, hbr]
      rw [scanRe_match '{' ('{' :: (k ++ ['}', '}'])) repl _ _ _ hrep]
      rw [← hbr]
      have hlt : (interc (braced k) (s1 :: rest2)).length < (fuel - s0.length) - 1 := by
        have hb : (braced k).length = k.length + 4 := by simp [braced]
        simp only [List.length_append] at hlen2
        omega
      rw [ih ((fuel - s0.length) - 1) (pre ++ s0 ++ braced k) (List.cons_ne_nil s1 rest2)
        hmem2 hlt]
      rw [interc]
      simp [List.append_assoc]

theorem replaceCustomData_single (k v : Str) (segs : List Str)
    (hk : k.all safeKeyChar = true) (hv : '$' ∉ v) (hne : segs ≠ [])
    (hmem : ∀ x ∈ segs, '{' ∉ x) :
    replaceCustomData [(k, v)] (interc (braced k) segs) = .ok (interc v segs) := by
  rw [replaceCustomData.eq_def]
  dsimp only
  rw [compile_braced_safe hk]
  dsimp only
  rw [regexReplaceAll]
  rw [scanRe_interc k v hv segs _ [] hne hmem (Nat.lt_succ_self _)]
  rfl

theorem findMarkersF_none : ∀ (fuel : Nat) (s : Str), '{' ∉ s →
    findMarkersF fuel s = [] := by
  intro fuel
  induction fuel with
  | zero => intro s _; rfl
  | succ f ih =>
    intro s hs
    cases s with
    | nil => rfl
    | cons c rest =>
      have hc : c ≠ '{' := fun hh => hs (hh ▸ List.mem_cons_self c rest)
      have hr : '{' ∉ rest := fun hh => hs (List.mem_cons_of_mem c hh)
      rw [findMarkersF.eq_def]
      dsimp only
      rw [if_neg hc]
      exact ih rest hr

theorem findMarkersF_skip : ∀ (a : Str) (fuel : Nat) (t : Str), '{' ∉ a →
    findMarkersF (a.length + fuel) (a ++ t) = findMarkersF fuel t := by
  intro a
  induction a with
  | nil => intro fuel t _; simp
  | cons c a2 ih =>
    intro fuel t ha
    have hc : c ≠ '{' := fun hh => ha (hh ▸ List.mem_cons_self c a2)
    have ha2 : '{' ∉ a2 := fun hh => ha (List.mem_cons_of_mem c hh)
    have hfuel : (c :: a2).length + fuel = (a2.length + fuel) + 1 := by
      simp [List.length_cons]; omega
    rw [hfuel]
    simp only [List.cons_append]
    rw [findMarkersF.eq_def]
    dsimp only
    rw [if_neg hc]
    exact ih fuel t ha2

theorem takeWhile_no_rbrace (u : Str) :
    ∀ cnt : Str, '}' ∉ cnt →
      (cnt ++ '}' :: u).takeWhile (fun x => x != '}') = cnt := by
  intro cnt
  induction cnt with
  | nil => intro _; simp [List.takeWhile]
  | cons d c2 ih =>
    intro h
    have hd : d ≠ '}' := fun hh => h (hh ▸ List.mem_cons_self d c2)
    have hc2 : '}' ∉ c2 := fun hh => h (List.mem_cons_of_mem d hh)
    simp only [List.cons_append, List.takeWhile_cons]
    rw [if_pos (by simp [hd]), ih hc2]

theorem findMarkersF_marker (cnt t : Str) (fuel : Nat) (hne : cnt ≠ [])
    (hnr : '}' ∉ cnt) :
    findMarkersF (fuel + 1) (braced cnt ++ t) =
      (braced cnt, cnt) :: findMarkersF fuel t := by
  have hshape : braced cnt ++ t = '{' :: ('{' :: (cnt ++ '}' :: '}' :: t)) := by
    simp [braced, List.append_assoc]
  rw [hshape, findMarkersF.eq_def]
  dsimp only
  rw [if_pos rfl, if_pos rfl]
  rw [takeWhile_no_rbrace ('}' :: t) cnt hnr]
  have hdrop : (cnt ++ '}' :: '}' :: t).drop cnt.length = '}' :: '}' :: t :=
    List.drop_left cnt _
  rw [hdrop]
  rw [if_pos ⟨hne, rfl⟩]
  simp [braced, List.append_assoc]

theorem findMarkers_interc (cnt : Str) (hne : cnt ≠ []) (hnr : '}' ∉ cnt) :
    ∀ (segs : List Str) (fuel : Nat), segs ≠ [] → (∀ x ∈ segs, '{' ∉ x) →
      (interc (braced cnt) segs).length ≤ fuel →
      findMarkersF fuel (interc (braced cnt) segs) =
        List.replicate (segs.length - 1) (braced cnt, cnt) := by
  intro segs
  induction segs with
  | nil => intro fuel h; exact absurd rfl h
  | cons s0 rest ih =>
    intro fuel _ hmem hfuel
    cases rest with
    | nil =>
      have hi : interc (braced cnt) [s0] = s0 := rfl
      rw [hi]
      simp [findMarkersF_none fuel s0 (hmem s0 (List.mem_cons_self _ _))]
    | cons s1 rest2 =>
      have hi : interc (braced cnt) (s0 :: s1 :: rest2) =
          s0 ++ (braced cnt ++ interc (braced cnt) (s1 :: rest2)) := by
        rw [interc]; simp [List.append_assoc]
      have hs0 : '{' ∉ s0 := hmem s0 (List.mem_cons_self _ _)
      have hmem2 : ∀ x ∈ s1 :: rest2, '{' ∉ x :=
        fun x hx => hmem x (List.mem_cons_of_mem s0 hx)
      rw [hi] at hfuel ⊢
      have hlen2 : s0.length + ((braced cnt).length +
          (interc (braced cnt) (s1 :: rest2)).length) ≤ fuel := by
        simpa [List.length_append] using hfuel
      have hf1 : fuel = s0.length + (fuel - s0.length) := by omega
      rw [hf1, findMarkersF_skip s0 (fuel - s0.length) _ hs0]
      have hbl : 0 < (braced cnt).length := by simp [braced]
      have hf2 : fuel - s0.length = ((fuel - s0.length) - 1) + 1 := by omega
      rw [hf2, findMarkersF_marker cnt _ _ hne hnr]
      have hlt : (interc (braced cnt) (s1 :: rest2)).length ≤ (fuel - s0.length) - 1 := by
        omega
      rw [ih ((fuel - s0.length) - 1) (List.cons_ne_nil s1 rest2) hmem2 hlt]
      have hcount : (s0 :: s1 :: rest2).length - 1 = ((s1 :: rest2).length - 1) + 1 := by
        simp
      rw [hcount, List.replicate_succ]

theorem rfs_skip (q r : Str) : ∀ (a acc t : Str), '{' ∉ a →
    rfs ('{' :: q) r acc (a ++ t) = rfs ('{' :: q) r (a.reverse ++ acc) t := by
  intro a
  induction a with
  | nil => intro acc t _; simp
  | cons c a2 ih =>
    intro acc t ha
    have hc : ¬ ('{' : Char) = c := fun hh =>
      ha (hh ▸ List.mem_cons_self c a2)
    have ha2 : '{' ∉ a2 := fun hh => ha (List.mem_cons_of_mem c hh)
    simp only [List.cons_append]
    rw [rfs.eq_def]
    dsimp only
    rw [startsWith.eq_def]
    dsimp only
    rw [if_neg hc]
    rw [if_neg (by simp)]
    rw [ih (c :: acc) t ha2]
    simp

theorem rfs_hit (c0 : Char) (q r b acc : Str) (hrep : '$' ∉ r) :
    rfs (c0 :: q) r acc ((c0 :: q) ++ b) = acc.reverse ++ r ++ b := by
  simp only [List.cons_append]
  rw [rfs.eq_def]
  dsimp only
  have hsw : startsWith (c0 :: q) (c0 :: (q ++ b)) = true := by
    have := startsWith_self_append (c0 :: q) b
    simpa [List.cons_append] using this
  rw [if_pos hsw]
  have hdrop : (c0 :: (q ++ b)).drop (c0 :: q).length = b := by
    have : (c0 :: (q ++ b)) = (c0 :: q) ++ b := by simp
    rw [this, List.drop_left]
  rw [hdrop, expandRepl_noDollar _ _ _ r hrep]

theorem replaceFirstStr_mid (q r a b : Str) (hrep : '$' ∉ r) (ha : '{' ∉ a) :
    replaceFirstStr ('{' :: q) r (a ++ ('{' :: q) ++ b) = a ++ r ++ b := by
  rw [replaceFirstStr, if_neg (List.cons_ne_nil '{' q)]
  rw [List.append_assoc, rfs_skip q r a [] (('{' :: q) ++ b) ha]
  rw [rfs_hit '{' q r b (a.reverse ++ []) hrep]
  simp

theorem startsWith_marker_ne :
    ∀ (cg cb u w : Str), cb ≠ cg → '}' ∉ cb → '}' ∉ cg →
      startsWith (cg ++ '}' :: u) (cb ++ '}' :: w) = false := by
  intro cg
  induction cg with
  | nil =>
    intro cb u w hne hcb _
    cases cb with
    | nil => exact absurd rfl hne
    | cons c cb2 =>
      have hc : ¬ ('}' : Char) = c := fun hh =>
        hcb (hh ▸ List.mem_cons_self c cb2)
      simp only [List.nil_append, List.cons_append]
      rw [startsWith.eq_def]
      dsimp only
      rw [if_neg hc]
  | cons g cg2 ih =>
    intro cb u w hne hcb hcg
    have hg : g ≠ '}' := fun hh => hcg (hh ▸ List.mem_cons_self g cg2)
    have hcg2 : '}' ∉ cg2 := fun hh => hcg (List.mem_cons_of_mem g hh)
    cases cb with
    | nil =>
      simp only [List.cons_append, List.nil_append]
      rw [startsWith.eq_def]
      dsimp only
      rw [if_neg hg]
    | cons c cb2 =>
      have hcb2 : '}' ∉ cb2 := fun hh => hcb (List.mem_cons_of_mem c hh)
      simp only [List.cons_append]
      rw [startsWith.eq_def]
      dsimp only
      by_cases hgc : g = c
      · subst hgc
        rw [if_pos rfl]
        have hne2 : cb2 ≠ cg2 := fun hh => hne (by rw [hh])
        exact ih cb2 u w hne2 hcb2 hcg2
      · rw [if_neg hgc]

theorem rfs_skip_marker (cg cb r : Str) (hne : cb ≠ cg) (hcb0 : cb ≠ [])
    (hcbl : '{' ∉ cb) (hcbr : '}' ∉ cb) (hcgr : '}' ∉ cg) :
    ∀ (acc t : Str), rfs (braced cg) r acc (braced cb ++ t) =
      rfs (braced cg) r ((braced cb).reverse ++ acc) t := by
  have hbrg : braced cg = '{' :: ('{' :: (cg ++ ['}', '}'])) := rfl
  intro acc t
  have hshape : braced cb ++ t = '{' :: ('{' :: (cb ++ '}' :: '}' :: t)) := by
    simp [braced, List.append_assoc]
  rw [hshape, rfs.eq_def]
  dsimp only
  have hc1 : startsWith (braced cg) ('{' :: ('{' :: (cb ++ '}' :: '}' :: t))) = false := by
    rw [hbrg]
    rw [startsWith.eq_def]
    dsimp only
    rw [if_pos rfl]
    rw [startsWith.eq_def]
    dsimp only
    rw [if_pos rfl]
    have hsh : cg ++ ['}', '}'] = cg ++ '}' :: ['}'] := rfl
    rw [hsh]
    exact startsWith_marker_ne cg cb ['}'] ('}' :: t) hne hcbr hcgr
  rw [hc1, if_neg (by simp)]
  rw [rfs.eq_def]
  dsimp only
  have hc2 : startsWith (braced cg) ('{' :: (cb ++ '}' :: '}' :: t)) = false := by
    rw [hbrg]
    rw [startsWith.eq_def]
    dsimp only
    rw [if_pos rfl]
    cases cb with
    | nil => exact absurd rfl hcb0
    | cons c cb2 =>
      have hc : ¬ ('{' : Char) = c := fun hh =>
        hcbl (hh ▸ List.mem_cons_self c cb2)
      simp only [List.cons_append]
      rw [startsWith.eq_def]
      dsimp only
      rw [if_neg hc]
  rw [hc2, if_neg (by simp)]
  have hsh2 : cb ++ '}' :: '}' :: t = (cb ++ ['}', '}']) ++ t := by simp
  have hnb : '{' ∉ cb ++ ['}', '}'] := by
    intro hh
    rcases List.mem_append.mp hh with h1 | h1
    · exact hcbl h1
    · simp at h1
  rw [hsh2, hbrg, rfs_skip ('{' :: (cg ++ ['}', '}'])) r (cb ++ ['}', '}'])
    ('{' :: '{' :: acc) t hnb]
  rw [← hbrg]
  congr 1
  simp [braced]

theorem replaceFirstStr_after_marker (cg cb v s0 s1 s2 : Str) (hrep : '$' ∉ v)
    (hne : cb ≠ cg) (hcb0 : cb ≠ []) (hcbl : '{' ∉ cb) (hcbr : '}' ∉ cb)
    (hcgr : '}' ∉ cg) (hs0 : '{' ∉ s0) (hs1 : '{' ∉ s1) :
    replaceFirstStr (braced cg) v (s0 ++ braced cb ++ s1 ++ braced cg ++ s2) =
      s0 ++ braced cb ++ s1 ++ v ++ s2 := by
  have hbrg : braced cg = '{' :: ('{' :: (cg ++ ['}', '}'])) := rfl
  rw [replaceFirstStr]
  rw [if_neg (by rw [hbrg]; exact List.cons_ne_nil _ _)]
  have hsh : s0 ++ braced cb ++ s1 ++ braced cg ++ s2 =
      s0 ++ (braced cb ++ (s1 ++ (braced cg ++ s2))) := by
    simp [List.append_assoc]
  rw [hsh]
  rw [hbrg, rfs_skip ('{' :: (cg ++ ['}', '}'])) v s0 [] _ hs0, ← hbrg]
  rw [rfs_skip_marker cg cb v hne hcb0 hcbl hcbr hcgr (s0.reverse ++ []) _]
  rw [hbrg, rfs_skip ('{' :: (cg ++ ['}', '}'])) v s1 _ _ hs1]
  rw [rfs_hit '{' ('{' :: (cg ++ ['}', '}'])) v s2 _ hrep]
  simp [braced, List.append_assoc]

theorem processMatches_none_all (M : Registry) :
    ∀ (ms : List (Str × Str)) (r0 : Str),
      (∀ m ∈ ms, lookupM M (markerNameOf m.2) = none) →
      processMatches M ms r0 = (r0, []) := by
  intro ms
  induction ms with
  | nil => intro r0 _; rfl
  | cons m ms2 ih =>
    intro r0 h
    obtain ⟨full, content⟩ := m
    have h1 : lookupM M (markerNameOf content) = none :=
      h (full, content) (List.mem_cons_self _ _)
    rw [processMatches.eq_def]
    dsimp only
    rw [h1]
    exact ih r0 (fun m hm => h m (List.mem_cons_of_mem _ hm))

theorem interc_merge (p : Str) :
    ∀ (x s : Str) (rest : List Str),
      interc p ((x ++ s) :: rest) = x ++ interc p (s :: rest) := by
  intro x s rest
  cases rest with
  | nil => rfl
  | cons r2 rest3 =>
    rw [interc, interc]
    simp [List.append_assoc]

theorem processMatches_const (M : Registry) (cnt v : Str) (fn : MarkerFn)
    (hlook : lookupM M (markerNameOf cnt) = some fn)
    (hfn : ∀ ps, fn ps = .ok v) (hvl : '{' ∉ v) (hvd : '$' ∉ v) :
    ∀ (rest : List Str) (s0 : Str), '{' ∉ s0 → (∀ x ∈ rest, '{' ∉ x) →
      processMatches M (List.replicate rest.length (braced cnt, cnt))
        (interc (braced cnt) (s0 :: rest)) = (interc v (s0 :: rest), []) := by
  have hbr : braced cnt = '{' :: ('{' :: (cnt ++ ['}', '}'])) := rfl
  intro rest
  induction rest with
  | nil => intro s0 _ _; rfl
  | cons s1 rest2 ih =>
    intro s0 hs0 hmem
    have hs1 : '{' ∉ s1 := hmem s1 (List.mem_cons_self _ _)
    have hmem2 : ∀ x ∈ rest2, '{' ∉ x :=
      fun x hx => hmem x (List.mem_cons_of_mem s1 hx)
    rw [List.length_cons, List.replicate_succ]
    rw [processMatches.eq_def]
    dsimp only
    rw [hlook]
    dsimp only
    rw [hfn (paramsOf cnt)]
    dsimp only
    have hi : interc (braced cnt) (s0 :: s1 :: rest2) =
        s0 ++ braced cnt ++ interc (braced cnt) (s1 :: rest2) := by
      rw [interc]
    rw [hi, hbr, replaceFirstStr_mid ('{' :: (cnt ++ ['}', '}'])) v s0 _ hvd hs0, ← hbr]
    have hmerge : s0 ++ v ++ interc (braced cnt) (s1 :: rest2) =
        interc (braced cnt) (((s0 ++ v) ++ s1) :: rest2) := by
      rw [interc_merge (braced cnt) (s0 ++ v) s1 rest2]
    rw [hmerge]
    have hsv : '{' ∉ (s0 ++ v) ++ s1 := by
      intro hh
      rcases List.mem_append.mp hh with h1 | h1
      · rcases List.mem_append.mp h1 with h2 | h2
        · exact hs0 h2
        · exact hvl h2
      · exact hs1 h1
    rw [ih ((s0 ++ v) ++ s1) hsv hmem2]
    rw [interc_merge v (s0 ++ v) s1 rest2]
    rw [interc]

theorem splitOnC_ne_nil (sep : Char) : ∀ s : Str, splitOnC sep s ≠ [] := by
  intro s
  cases s with
  | nil => simp [splitOnC]
  | cons c r =>
    rw [splitOnC]
    cases hs : splitOnC sep r with
    | nil => dsimp only; simp
    | cons h t =>
      dsimp only
      by_cases hc : c = sep
      · rw [if_pos hc]; simp
      · rw [if_neg hc]; simp

theorem splitOnC_not_mem (sep : Char) :
    ∀ s : Str, sep ∉ s → splitOnC sep s = [s] := by
  intro s
  induction s with
  | nil => intro _; rfl
  | cons c r ih =>
    intro h
    have hc : ¬ c = sep := fun hh => h (hh ▸ List.mem_cons_self c r)
    have hr : sep ∉ r := fun hh => h (List.mem_cons_of_mem c hh)
    rw [splitOnC, ih hr]
    dsimp only
    rw [if_neg hc]

theorem splitOnC_first (sep : Char) :
    ∀ (n rest : Str), sep ∉ n →
      splitOnC sep (n ++ sep :: rest) = n :: splitOnC sep rest := by
  intro n
  induction n with
  | nil =>
    intro rest _
    simp only [List.nil_append]
    rw [splitOnC]
    cases hs : splitOnC sep rest with
    | nil => exact absurd hs (splitOnC_ne_nil sep rest)
    | cons h t =>
      dsimp only
      rw [if_pos rfl]
  | cons c n2 ih =>
    intro rest h
    have hc : ¬ c = sep := fun hh => h (hh ▸ List.mem_cons_self c n2)
    have hn2 : sep ∉ n2 := fun hh => h (List.mem_cons_of_mem c hh)
    simp only [List.cons_append]
    rw [splitOnC, ih rest hn2]
    dsimp only
    rw [if_neg hc]

theorem joinC_splitOnC (sep : Char) : ∀ s : Str, joinC sep (splitOnC sep s) = s := by
  intro s
  induction s with
  | nil => rfl
  | cons c r ih =>
    rw [splitOnC]
    cases hs : splitOnC sep r with
    | nil => exact absurd hs (splitOnC_ne_nil sep r)
    | cons h t =>
      rw [hs] at ih
      dsimp only
      by_cases hc : c = sep
      · rw [if_pos hc]
        rw [joinC.eq_def]
        dsimp only
        rw [ih, hc]
        rfl
      · rw [if_neg hc]
        cases t with
        | nil =>
          rw [joinC.eq_def] at ih
          dsimp only at ih
          rw [joinC.eq_def]
          dsimp only
          rw [ih]
        | cons t0 t2 =>
          rw [joinC.eq_def] at ih
          dsimp only at ih
          rw [joinC.eq_def]
          dsimp only
          rw [List.cons_append, ih]

theorem lookupM_builtin_unknown (env : MarkerEnv) :
    lookupM (getBuiltInMarkers env) (strL ("totally_unknown_xyz")) = none := rfl

theorem lookupM_builtin_capitalize (env : MarkerEnv) :
    lookupM (getBuiltInMarkers env) (strL ("capitalize")) = some capitalize := rfl

theorem findMarkers_one (a b m : Str) (ha : '{' ∉ a) (hb : '{' ∉ b)
    (hm : m ≠ []) (hmr : '}' ∉ m) :
    findMarkers (a ++ braced m ++ b) = [(braced m, m)] := by
  rw [findMarkers]
  have hsh : a ++ braced m ++ b = a ++ (braced m ++ b) := by simp
  rw [hsh]
  have hlen : (a ++ (braced m ++ b)).length = a.length + (braced m ++ b).length := by
    simp
  rw [hlen, findMarkersF_skip a _ _ ha]
  have hbl : 0 < (braced m).length := by simp [braced]
  have hf : (braced m ++ b).length = (((braced m ++ b).length - 1) + 1) := by
    simp only [List.length_append]; omega
  rw [hf, findMarkersF_marker m b _ hm hmr]
  rw [findMarkersF_none _ b hb]

theorem findMarkers_braced (m : Str) (hm : m ≠ []) (hmr : '}' ∉ m) :
    findMarkers (braced m) = [(braced m, m)] := by
  have h := findMarkers_one [] [] m (by simp) (by simp) hm hmr
  simpa using h

theorem findMarkers_two (s0 s1 s2 cb cg : Str) (hs0 : '{' ∉ s0) (hs1 : '{' ∉ s1)
    (hs2 : '{' ∉ s2) (hcb : cb ≠ []) (hcbr : '}' ∉ cb) (hcg : cg ≠ [])
    (hcgr : '}' ∉ cg) :
    findMarkers (s0 ++ braced cb ++ s1 ++ braced cg ++ s2) =
      [(braced cb, cb), (braced cg, cg)] := by
  rw [findMarkers]
  have hsh : s0 ++ braced cb ++ s1 ++ braced cg ++ s2 =
      s0 ++ (braced cb ++ (s1 ++ (braced cg ++ s2))) := by simp
  rw [hsh]
  have hlen : (s0 ++ (braced cb ++ (s1 ++ (braced cg ++ s2)))).length =
      s0.length + (braced cb ++ (s1 ++ (braced cg ++ s2))).length := by simp
  rw [hlen, findMarkersF_skip s0 _ _ hs0]
  have hbl : 0 < (braced cb).length := by simp [braced]
  have hf1 : (braced cb ++ (s1 ++ (braced cg ++ s2))).length =
      ((braced cb ++ (s1 ++ (braced cg ++ s2))).length - 1) + 1 := by
    simp only [List.length_append]; omega
  rw [hf1, findMarkersF_marker cb _ _ hcb hcbr]
  have hf2 : (braced cb ++ (s1 ++ (braced cg ++ s2))).length - 1 =
      s1.length + ((braced cb ++ (s1 ++ (braced cg ++ s2))).length - 1 - s1.length) := by
    simp only [List.length_append]; omega
  rw [hf2, findMarkersF_skip s1 _ _ hs1]
  have hbgl : 0 < (braced cg).length := by simp [braced]
  have hf3 : (braced cb ++ (s1 ++ (braced cg ++ s2))).length - 1 - s1.length =
      ((braced cb ++ (s1 ++ (braced cg ++ s2))).length - 1 - s1.length - 1) + 1 := by
    simp only [List.length_append]; omega
  rw [hf3, findMarkersF_marker cg s2 _ hcg hcgr]
  rw [findMarkersF_none _ s2 hs2]

theorem replaceFirstStr_whole (q r : Str) (hrep : '$' ∉ r) :
    replaceFirstStr ('{' :: q) r ('{' :: q) = r := by
  rw [replaceFirstStr, if_neg (List.cons_ne_nil '{' q)]
  have h := rfs_hit '{' q r [] [] hrep
  simpa using h

theorem replaceCustomData_whole (k v : Str) (hk : k.all safeKeyChar = true)
    (hv : '$' ∉ v) :
    replaceCustomData [(k, v)] (braced k) = .ok v := by
  have h := replaceCustomData_single k v [[], []] hk hv (by simp)
    (by
      intro x hx
      rcases List.mem_cons.mp hx with h | h2
      · subst h; simp
      · have hx2 : x = [] := by simpa using h2
        subst hx2; simp)
  have h1 : interc (braced k) [[], []] = braced k := by simp [interc]
  have h2 : interc v [[], []] = v := by simp [interc]
  rw [h1, h2] at h
  exact h

theorem replaceCustomData_cons (k v t u : Str) (rest : List (Str × Str))
    (h : replaceCustomData [(k, v)] t = .ok u) :
    replaceCustomData ((k, v) :: rest) t = replaceCustomData rest u := by
  rw [replaceCustomData.eq_def] at h ⊢
  dsimp only at h ⊢
  cases hc : regexCompile (braced k) with
  | error e =>
    rw [hc] at h
    dsimp only at h
    exact absurd h (by simp)
  | ok ts =>
    rw [hc] at h
    dsimp only at h ⊢
    have hu : regexReplaceAll ts v t = u := by
      have h2 : Except.ok (regexReplaceAll ts v t) = (.ok u : Except String Str) := h
      exact (Except.ok.injEq _ _).mp h2
    rw [hu]

theorem noDollar_braced (k : Str) (hk : k.all safeKeyChar = true) :
    '$' ∉ braced k := by
  intro hh
  simp only [braced, List.mem_cons, List.mem_append] at hh
  rcases hh with h1 | h1 | h1 | h1
  · exact absurd h1 (by decide)
  · exact absurd h1 (by decide)
  · exact absurd (List.all_eq_true.mp hk _ h1) (by decide)
  · simp at h1

theorem replaceCustomData_mid (k v a b : Str)
    (hk : k.all safeKeyChar = true) (hv : '$' ∉ v) (ha : '{' ∉ a) (hb : '{' ∉ b) :
    replaceCustomData [(k, v)] (a ++ braced k ++ b) = .ok (a ++ v ++ b) := by
  have h := replaceCustomData_single k v [a, b] hk hv (by simp)
    (by
      intro x hx
      rcases List.mem_cons.mp hx with h1 | h1
      · subst h1; exact ha
      · have h2 : x = b := by simpa using h1
        subst h2; exact hb)
  have h1 : interc (braced k) [a, b] = a ++ braced k ++ b := rfl
  have h2 : interc v [a, b] = a ++ v ++ b := rfl
  rw [h1, h2] at h
  exact h

/-! ### Claim theorems -/

/-- C1 (amended): `process` returns a string and never raises provided
every customData key compiles as a regular expression when interpolated
into the `{{key}}` pattern; with a key containing an unbalanced
metacharacter such as `(` the custom pass throws a SyntaxError instead
(see the counterexample). -/
theorem process_total_of_keys_compile (M : Registry) (data : List (Str × Str)) (t : Str)
    (h : ∀ kv ∈ data, ∃ ts, regexCompile (braced kv.1) = .ok ts) :
    ∃ r, process M data t = .ok r := by
  have haux : ∀ (d : List (Str × Str)) (u : Str),
      (∀ kv ∈ d, ∃ ts, regexCompile (braced kv.1) = .ok ts) →
      ∃ w, replaceCustomData d u = .ok w := by
    intro d
    induction d with
    | nil => intro u _; exact ⟨u, rfl⟩
    | cons kv rest ih =>
      intro u hkv
      obtain ⟨k, v⟩ := kv
      obtain ⟨ts, hts⟩ := hkv (k, v) (List.mem_cons_self _ _)
      rw [replaceCustomData.eq_def]
      dsimp only
      dsimp only at hts
      rw [hts]
      exact ih (regexReplaceAll ts v u) (fun kv2 h2 => hkv kv2 (List.mem_cons_of_mem _ h2))
  obtain ⟨w, hw⟩ := haux data t h
  refine ⟨(replaceBuiltInMarkers M w), ?_⟩
  rw [process.eq_def, hw]

/-- Witness for C1: a well-formed custom key, applied concretely. -/
theorem process_total_of_keys_compile_witness :
    (∀ kv ∈ [(strL ("name"), strL ("Bob"))], ∃ ts, regexCompile (braced kv.1) = .ok ts) ∧
    ∃ r, process [] [(strL ("name"), strL ("Bob"))]
      (strL ("Hi ") ++ braced (strL ("name")) ++ strL ("!")) = .ok r := by
  have hyp : ∀ kv ∈ [(strL ("name"), strL ("Bob"))],
      ∃ ts, regexCompile (braced kv.1) = .ok ts := by
    intro kv hkv
    have h := List.mem_singleton.mp hkv
    subst h
    exact ⟨_, rfl⟩
  exact ⟨hyp, process_total_of_keys_compile [] _ _ hyp⟩

/-- Counterexample for C1 as stated: the key `(` makes the custom pass
throw the RegExp SyntaxError, so `process` does not return a string. -/
theorem process_raises_on_unbalanced_key :
    process [] [(strL ("("), strL ("A"))] (strL ("hello")) =
      .error "Invalid regular expression: Unterminated group" := by decide

/-- C2 (amended): the key is interpolated into the pattern without
escaping, so regex metacharacters in keys are interpreted as syntax (see
the counterexample); for keys made only of `safeKeyChar` characters the
pattern is an exact literal matcher and every literal occurrence of
`{{key}}` is replaced with the (dollar-free) value, everything else
being left unchanged. -/
theorem custom_key_literal_replace_of_safe (k v : Str) (segs : List Str)
    (hk : k.all safeKeyChar = true) (hv : '$' ∉ v) (hne : segs ≠ [])
    (hmem : ∀ x ∈ segs, '{' ∉ x) :
    replaceCustomData [(k, v)] (interc (braced k) segs) = .ok (interc v segs) :=
  replaceCustomData_single k v segs hk hv hne hmem

/-- Witness for C2: two literal occurrences, both replaced. -/
theorem custom_key_literal_replace_of_safe_witness :
    replaceCustomData [(strL ("name"), strL ("Acme"))]
      (strL ("Hi ") ++ braced (strL ("name")) ++ strL (" and ") ++
        braced (strL ("name")) ++ strL ("!")) =
      .ok (strL ("Hi Acme and Acme!")) :=
  (custom_key_literal_replace_of_safe (strL ("name")) (strL ("Acme"))
    [strL ("Hi "), strL (" and "), strL ("!")]
    (by decide) (by decide) (by decide) (by decide)).trans (by decide)

/-- Counterexample for C2 as stated: with key `a.b` the text `{{axb}}`,
which is not the literal `{{a.b}}`, is nevertheless replaced (the dot is
regex syntax, not a literal). -/
theorem custom_key_metachar_matches_nonliteral :
    process [] [(strL ("a.b"), strL ("v"))] (braced (strL ("axb"))) =
      .ok (strL ("v"), []) ∧ strL ("axb") ≠ strL ("a.b") := by decide

/-- C3 (amended): the value is passed as a `String.replace` replacement
and its dollar patterns are interpreted (see the counterexample); a
value containing no `$` is inserted verbatim, character for character,
for each matched occurrence. -/
theorem custom_value_verbatim_of_no_dollar (k v a b : Str)
    (hk : k.all safeKeyChar = true) (hv : '$' ∉ v) (ha : '{' ∉ a) (hb : '{' ∉ b) :
    replaceCustomData [(k, v)] (a ++ braced k ++ b) = .ok (a ++ v ++ b) :=
  replaceCustomData_mid k v a b hk hv ha hb

/-- Witness for C3: a dollar-free value inserted verbatim. -/
theorem custom_value_verbatim_of_no_dollar_witness :
    replaceCustomData [(strL ("amount"), strL ("100"))]
      (strL ("price: ") ++ braced (strL ("amount")) ++ strL (" USD")) =
      .ok (strL ("price: 100 USD")) :=
  (custom_value_verbatim_of_no_dollar (strL ("amount")) (strL ("100"))
    (strL ("price: ")) (strL (" USD"))
    (by decide) (by decide) (by decide) (by decide)).trans (by decide)

/-- Counterexample for C3 as stated: the value `$&` is interpreted as
the matched-substring replacement pattern, so `{{k}}` is replaced by
`{{k}}` itself rather than by the two characters `$&`. -/
theorem custom_value_dollar_interpreted :
    process [] [(strL ("k"), strL ("$&"))] (braced (strL ("k"))) =
      .ok (braced (strL ("k")), []) ∧ braced (strL ("k")) ≠ strL ("$&") := by decide

/-- C4 (amended): for a key made of `safeKeyChar` characters, custom-data
substitution runs before the built-in pass and wins over any registered
marker of the same name, whatever the registry holds; a key containing a
metacharacter such as `(` instead makes `process` throw (see the
counterexample). -/
theorem custom_shadows_marker_of_safe_key (M : Registry) (k : Str)
    (hk : k.all safeKeyChar = true) :
    process M [(k, strL ("A"))] (braced k) = .ok (strL ("A"), []) := by
  have hcd : replaceCustomData [(k, strL ("A"))] (braced k) = .ok (strL ("A")) :=
    replaceCustomData_whole k (strL ("A")) hk (by decide)
  rw [process.eq_def, hcd]
  dsimp only
  have hf : findMarkers (strL ("A")) = [] := by decide
  rw [replaceBuiltInMarkers, hf]
  rfl

/-- Witness for C4: key `x` shadows a registered marker `x`. -/
theorem custom_shadows_marker_of_safe_key_witness :
    process (registerMarker [] (strL ("x")) (fun _ => Except.ok (strL ("B"))))
      [(strL ("x"), strL ("A"))] (braced (strL ("x"))) = .ok (strL ("A"), []) :=
  custom_shadows_marker_of_safe_key _ _ (by decide)

/-- Counterexample for C4 as stated: with key `(` (and a marker of that
name registered), `process` throws instead of yielding `A`. -/
theorem custom_shadowing_raises_on_metachar_key :
    process [(strL ("("), fun _ => Except.ok (strL ("B")))]
      [(strL ("("), strL ("A"))] (braced (strL ("("))) =
      .error "Invalid regular expression: Unterminated group" := by decide

/-- C5: a registered marker whose function returns the fixed string `v`
has every one of its occurrences replaced by the built-in pass: for a
text laid out as segments interleaved with `rest.length` copies of the
marker text, all copies are retired (the `matchAll` list contains one
entry per occurrence and each string `replace` retires exactly one). -/
theorem builtin_replaces_all_duplicate_markers (M : Registry) (cnt v : Str)
    (fn : MarkerFn) (s0 : Str) (rest : List Str)
    (hlook : lookupM M (markerNameOf cnt) = some fn)
    (hfn : ∀ ps, fn ps = .ok v)
    (hcnt : cnt ≠ []) (hcntr : '}' ∉ cnt)
    (hs0 : '{' ∉ s0) (hmem : ∀ x ∈ rest, '{' ∉ x)
    (hvl : '{' ∉ v) (hvd : '$' ∉ v) :
    replaceBuiltInMarkers M (interc (braced cnt) (s0 :: rest)) =
      (interc v (s0 :: rest), []) := by
  rw [replaceBuiltInMarkers]
  have hmemall : ∀ x ∈ s0 :: rest, '{' ∉ x := by
    intro x hx
    rcases List.mem_cons.mp hx with h1 | h1
    · subst h1; exact hs0
    · exact hmem x h1
  have hfind : findMarkers (interc (braced cnt) (s0 :: rest)) =
      List.replicate rest.length (braced cnt, cnt) := by
    rw [findMarkers]
    have h := findMarkers_interc cnt hcnt hcntr (s0 :: rest) _
      (List.cons_ne_nil _ _) hmemall (Nat.le_refl _)
    simpa using h
  rw [hfind]
  exact processMatches_const M cnt v fn hlook hfn hvl hvd rest s0 hs0 hmem

/-- Witness for C5: marker `u` occurring twice, both replaced. -/
theorem builtin_replaces_all_duplicate_markers_witness :
    replaceBuiltInMarkers [(strL ("u"), fun _ => Except.ok (strL ("X")))]
      (strL ("a") ++ braced (strL ("u")) ++ strL ("b") ++
        braced (strL ("u")) ++ strL ("c")) = (strL ("aXbXc"), []) := by
  have h := builtin_replaces_all_duplicate_markers
    [(strL ("u"), fun _ => Except.ok (strL ("X")))] (strL ("u")) (strL ("X"))
    (fun _ => Except.ok (strL ("X"))) (strL ("a")) [strL ("b"), strL ("c")]
    rfl (fun _ => rfl) (by decide) (by decide) (by decide) (by decide)
    (by decide) (by decide)
  exact h.trans (by decide)

/-- C6: marker content splits on the first colon only: the part before
it (trimmed) is the name; everything after the first colon is rejoined
(later colons preserved) and then comma-split into trimmed parameters;
content with no colon yields the trimmed content as name and exactly
zero parameters. -/
theorem marker_content_parsing :
    (∀ (n rest : Str), ':' ∉ n →
      markerNameOf (n ++ ':' :: rest) = trimS n ∧
      paramsOf (n ++ ':' :: rest) =
        (if rest = [] then [] else (splitOnC ',' rest).map trimS)) ∧
    (∀ c : Str, ':' ∉ c → markerNameOf c = trimS c ∧ paramsOf c = []) := by
  constructor
  · intro n rest hn
    have hsp := splitOnC_first ':' n rest hn
    constructor
    · rw [markerNameOf, hsp]
      rfl
    · rw [paramsOf.eq_def]
      dsimp only
      rw [paramStringOf, hsp]
      dsimp only [List.tail_cons]
      rw [joinC_splitOnC]
  · intro c hc
    have hsp := splitOnC_not_mem ':' c hc
    constructor
    · rw [markerNameOf, hsp]
      rfl
    · rw [paramsOf.eq_def]
      dsimp only
      rw [paramStringOf, hsp]
      dsimp only [List.tail_cons]
      rw [joinC]
      rw [if_pos rfl]

/-- Witness for C6: a content with colons inside a parameter, and one
with no colon at all. -/
theorem marker_content_parsing_witness :
    markerNameOf (strL ("remind") ++ ':' :: strL (" 10:30, 11:45")) = strL ("remind") ∧
    paramsOf (strL ("remind") ++ ':' :: strL (" 10:30, 11:45")) =
      [strL ("10:30"), strL ("11:45")] ∧
    markerNameOf (strL ("current_year")) = strL ("current_year") ∧
    paramsOf (strL ("current_year")) = [] := by
  refine ⟨?_, ?_, ?_, ?_⟩
  · exact ((marker_content_parsing.1 _ _ (by decide)).1).trans (by decide)
  · exact ((marker_content_parsing.1 _ _ (by decide)).2).trans (by decide)
  · exact ((marker_content_parsing.2 _ (by decide)).1).trans (by decide)
  · exact (marker_content_parsing.2 _ (by decide)).2

/-- C7 (amended): a marker occurrence whose parsed name the property
access resolves to nothing — absent from the registry's own entries
AND not colliding with a property inherited from `Object.prototype` —
is left verbatim with no error: every such text passes through the
built-in pass unchanged with an empty log, and concretely `process` on
`{{totally_unknown_xyz}}` returns the input unchanged, for every
environment.  A name that does collide with an inherited property is
instead resolved through the prototype chain: `{{toString}}` is
replaced by the undefined-tag string (see the counterexample). -/
theorem unknown_marker_left_verbatim :
    (∀ (M : Registry) (t : Str),
      (∀ m ∈ findMarkers t, lookupM M (markerNameOf m.2) = none) →
      replaceBuiltInMarkers M t = (t, [])) ∧
    (∀ env : MarkerEnv,
      process (getBuiltInMarkers env) [] (braced (strL ("totally_unknown_xyz"))) =
        .ok (braced (strL ("totally_unknown_xyz")), [])) ∧
    (∀ env : MarkerEnv,
      process (getBuiltInMarkers env) [] (braced (strL ("toString"))) =
        .ok (strL ("[object Undefined]"), [])) := by
  have hpart1 : ∀ (M : Registry) (t : Str),
      (∀ m ∈ findMarkers t, lookupM M (markerNameOf m.2) = none) →
      replaceBuiltInMarkers M t = (t, []) := by
    intro M t h
    rw [replaceBuiltInMarkers]
    exact processMatches_none_all M (findMarkers t) t h
  refine ⟨hpart1, ?_, ?_⟩
  · intro env
    have hhyp : ∀ m ∈ findMarkers (braced (strL ("totally_unknown_xyz"))),
        lookupM (getBuiltInMarkers env) (markerNameOf m.2) = none := by
      intro m hm
      have hf : findMarkers (braced (strL ("totally_unknown_xyz"))) =
          [(braced (strL ("totally_unknown_xyz")), strL ("totally_unknown_xyz"))] := by
        decide
      rw [hf] at hm
      have hme := List.mem_singleton.mp hm
      subst hme
      dsimp only
      have hname : markerNameOf (strL ("totally_unknown_xyz")) =
          strL ("totally_unknown_xyz") := by decide
      rw [hname]
      exact lookupM_builtin_unknown env
    have hstep : process (getBuiltInMarkers env) []
        (braced (strL ("totally_unknown_xyz"))) =
        .ok (replaceBuiltInMarkers (getBuiltInMarkers env)
          (braced (strL ("totally_unknown_xyz")))) := rfl
    rw [hstep, hpart1 _ _ hhyp]
  · intro env
    have hstep : process (getBuiltInMarkers env) [] (braced (strL ("toString"))) =
        .ok (replaceBuiltInMarkers (getBuiltInMarkers env)
          (braced (strL ("toString")))) := rfl
    rw [hstep, replaceBuiltInMarkers]
    have hfind : findMarkers (braced (strL ("toString"))) =
        [(braced (strL ("toString")), strL ("toString"))] := by decide
    rw [hfind]
    rw [processMatches.eq_def]
    dsimp only
    have hname : markerNameOf (strL ("toString")) = strL ("toString") := by decide
    rw [hname]
    have hlook : lookupM (getBuiltInMarkers env) (strL ("toString")) =
        some (fun _ => Except.ok (strL ("[object Undefined]"))) := rfl
    rw [hlook]
    dsimp only
    have hbr : braced (strL ("toString")) =
        '{' :: ('{' :: (strL ("toString") ++ ['}', '}'])) := rfl
    rw [hbr, replaceFirstStr_whole _ _ (by decide)]
    rfl

/-- Witness for C7: an unregistered marker in an empty registry. -/
theorem unknown_marker_left_verbatim_witness :
    replaceBuiltInMarkers [] (strL ("hello ") ++ braced (strL ("x"))) =
      (strL ("hello ") ++ braced (strL ("x")), []) :=
  unknown_marker_left_verbatim.1 [] _ (by
    intro m hm
    have hf : findMarkers (strL ("hello ") ++ braced (strL ("x"))) =
        [(braced (strL ("x")), strL ("x"))] := by decide
    rw [hf] at hm
    have hme := List.mem_singleton.mp hm
    subst hme
    rfl)

/-- Counterexample for C7 as stated: the name `toString` is absent from
the marker registry, yet the occurrence is not left verbatim — the
unguarded property access finds the inherited
`Object.prototype.toString`, whose bare invocation returns the
undefined-tag string, and that replaces the marker. -/
theorem inherited_proto_marker_substituted :
    process (getBuiltInMarkers trivEnv) [] (braced (strL ("toString"))) =
      .ok (strL ("[object Undefined]"), []) ∧
    strL ("[object Undefined]") ≠ braced (strL ("toString")) := by decide

/-- C8: when an invoked marker function throws, that occurrence is left
completely unchanged, a diagnostic (marker text, message) is logged,
the remaining matches are still processed (here a later marker is still
replaced), and `process` returns normally. -/
theorem failing_marker_logged_and_processing_continues
    (M : Registry) (cb cg v s0 s1 s2 : Str) (msg : String) (fnb fng : MarkerFn)
    (hlb : lookupM M (markerNameOf cb) = some fnb)
    (hfb : fnb (paramsOf cb) = .error msg)
    (hlg : lookupM M (markerNameOf cg) = some fng)
    (hfg : fng (paramsOf cg) = .ok v)
    (hcb : cb ≠ []) (hcg : cg ≠ []) (hbg : cb ≠ cg)
    (hcbr : '}' ∉ cb) (hcbl : '{' ∉ cb) (hcgr : '}' ∉ cg)
    (hs0 : '{' ∉ s0) (hs1 : '{' ∉ s1) (hs2 : '{' ∉ s2) (hvd : '$' ∉ v) :
    process M [] (s0 ++ braced cb ++ s1 ++ braced cg ++ s2) =
      .ok (s0 ++ braced cb ++ s1 ++ v ++ s2, [(braced cb, msg)]) := by
  have hstep : process M [] (s0 ++ braced cb ++ s1 ++ braced cg ++ s2) =
      .ok (replaceBuiltInMarkers M (s0 ++ braced cb ++ s1 ++ braced cg ++ s2)) := rfl
  rw [hstep, replaceBuiltInMarkers]
  rw [findMarkers_two s0 s1 s2 cb cg hs0 hs1 hs2 hcb hcbr hcg hcgr]
  rw [processMatches.eq_def]
  dsimp only
  rw [hlb]
  dsimp only
  rw [hfb]
  dsimp only
  rw [processMatches.eq_def]
  dsimp only
  rw [hlg]
  dsimp only
  rw [hfg]
  dsimp only
  rw [replaceFirstStr_after_marker cg cb v s0 s1 s2 hvd hbg hcb hcbl hcbr hcgr hs0 hs1]
  rfl

/-- Witness for C8: marker `bad` throws `boom` and is left verbatim with
a log entry; the later marker `good` is still replaced. -/
theorem failing_marker_logged_and_processing_continues_witness :
    process [(strL ("bad"), fun _ => Except.error "boom"),
             (strL ("good"), fun _ => Except.ok (strL ("G")))] []
      (strL ("x") ++ braced (strL ("bad")) ++ strL ("y") ++
        braced (strL ("good")) ++ strL ("z")) =
      .ok (strL ("x") ++ braced (strL ("bad")) ++ strL ("y") ++
        strL ("G") ++ strL ("z"), [(braced (strL ("bad")), "boom")]) := by
  exact failing_marker_logged_and_processing_continues
    [(strL ("bad"), fun _ => Except.error "boom"),
     (strL ("good"), fun _ => Except.ok (strL ("G")))]
    (strL ("bad")) (strL ("good")) (strL ("G"))
    (strL ("x")) (strL ("y")) (strL ("z")) "boom"
    (fun _ => Except.error "boom") (fun _ => Except.ok (strL ("G")))
    rfl rfl rfl rfl
    (by decide) (by decide) (by decide) (by decide) (by decide) (by decide)
    (by decide) (by decide) (by decide) (by decide)

/-- C9 (amended): `{{capitalize:t}}` with a nonempty parameter text `t`
resolves to `t` trimmed, first character uppercased and remainder
lowercased; but the exact marker text `{{capitalize:}}` produces zero
parameters (the empty parameter string is falsy), the invocation throws
on the missing argument, and the marker is left verbatim with a logged
diagnostic (see the counterexample) rather than resolving to the empty
string. -/
theorem capitalize_marker_resolution :
    (∀ (env : MarkerEnv) (t : Str), t ≠ [] → ',' ∉ t → '}' ∉ t →
      '$' ∉ jsCapitalize (trimS t) →
      process (getBuiltInMarkers env) [] (braced (strL ("capitalize:") ++ t)) =
        .ok (jsCapitalize (trimS t), [])) ∧
    (∀ env : MarkerEnv,
      process (getBuiltInMarkers env) [] (braced (strL ("capitalize:"))) =
        .ok (braced (strL ("capitalize:")),
          [(braced (strL ("capitalize:")),
            "TypeError: Cannot read properties of undefined - reading charAt")])) := by
  constructor
  · intro env t ht hcomma hrb hdol
    have hcsh : strL ("capitalize:") ++ t = strL ("capitalize") ++ ':' :: t := by
      have h : strL ("capitalize:") = strL ("capitalize") ++ [':'] := by decide
      rw [h]
      simp
    rw [hcsh]
    have hstep : process (getBuiltInMarkers env) []
        (braced (strL ("capitalize") ++ ':' :: t)) =
        .ok (replaceBuiltInMarkers (getBuiltInMarkers env)
          (braced (strL ("capitalize") ++ ':' :: t))) := rfl
    rw [hstep, replaceBuiltInMarkers]
    have hno_r : '}' ∉ strL ("capitalize") ++ ':' :: t := by
      intro hh
      rcases List.mem_append.mp hh with h1 | h1
      · exact absurd h1 (by decide)
      · rcases List.mem_cons.mp h1 with h2 | h2
        · exact absurd h2 (by decide)
        · exact hrb h2
    have hfind := findMarkers_braced (strL ("capitalize") ++ ':' :: t) (by simp) hno_r
    rw [hfind]
    rw [processMatches.eq_def]
    dsimp only
    have hname : markerNameOf (strL ("capitalize") ++ ':' :: t) = strL ("capitalize") := by
      rw [markerNameOf, splitOnC_first ':' _ t (by decide)]
      exact (by decide : trimS (strL ("capitalize")) = strL ("capitalize"))
    rw [hname, lookupM_builtin_capitalize env]
    dsimp only
    have hparams : paramsOf (strL ("capitalize") ++ ':' :: t) = [trimS t] := by
      rw [paramsOf.eq_def]
      dsimp only
      rw [paramStringOf, splitOnC_first ':' _ t (by decide)]
      dsimp only [List.tail_cons]
      rw [joinC_splitOnC]
      rw [if_neg ht, splitOnC_not_mem ',' t hcomma]
      rfl
    rw [hparams]
    have hcap : capitalize [trimS t] = .ok (jsCapitalize (trimS t)) := rfl
    rw [hcap]
    dsimp only
    have hbr : braced (strL ("capitalize") ++ ':' :: t) =
        '{' :: ('{' :: ((strL ("capitalize") ++ ':' :: t) ++ ['}', '}'])) := rfl
    rw [hbr, replaceFirstStr_whole _ _ hdol]
    rfl
  · intro env
    have hstep : process (getBuiltInMarkers env) [] (braced (strL ("capitalize:"))) =
        .ok (replaceBuiltInMarkers (getBuiltInMarkers env)
          (braced (strL ("capitalize:")))) := rfl
    rw [hstep, replaceBuiltInMarkers]
    have hfind : findMarkers (braced (strL ("capitalize:"))) =
        [(braced (strL ("capitalize:")), strL ("capitalize:"))] := by decide
    rw [hfind]
    rw [processMatches.eq_def]
    dsimp only
    have hname : markerNameOf (strL ("capitalize:")) = strL ("capitalize") := by decide
    rw [hname, lookupM_builtin_capitalize env]
    dsimp only
    have hparams : paramsOf (strL ("capitalize:")) = [] := by decide
    rw [hparams]
    have hcap : capitalize [] =
        .error "TypeError: Cannot read properties of undefined - reading charAt" := rfl
    rw [hcap]
    rfl

/-- Witness for C9: the spec scenario, capitalize of `hello world`. -/
theorem capitalize_marker_resolution_witness :
    process (getBuiltInMarkers trivEnv) []
      (braced (strL ("capitalize:") ++ strL ("hello world"))) =
      .ok (strL ("Hello world"), []) :=
  (capitalize_marker_resolution.1 trivEnv (strL ("hello world"))
    (by decide) (by decide) (by decide) (by decide)).trans (by decide)

/-- Counterexample for C9 as stated: `{{capitalize:}}` is left verbatim
(and logged), not replaced by the empty string. -/
theorem capitalize_empty_marker_left_verbatim :
    process (getBuiltInMarkers trivEnv) [] (braced (strL ("capitalize:"))) =
      .ok (braced (strL ("capitalize:")),
        [(braced (strL ("capitalize:")),
          "TypeError: Cannot read properties of undefined - reading charAt")]) ∧
    braced (strL ("capitalize:")) ≠ ([] : Str) := by decide

/-- C10 (amended): the built-in pass scans the output of the custom-data
pass, so a custom value that is itself a registered marker text is
expanded in the same `process` call; a custom value consisting of
another customData key is, however, also expanded by the custom pass
itself whenever the referenced key occurs later in the entries order
(see the counterexample to the claim's parenthetical). -/
theorem custom_value_builtin_expansion :
    (∀ (M : Registry) (k m v : Str) (fn : MarkerFn) (a b : Str),
      k.all safeKeyChar = true → m ≠ [] → '}' ∉ m → '$' ∉ m →
      lookupM M (markerNameOf m) = some fn → fn (paramsOf m) = .ok v →
      '$' ∉ v → '{' ∉ a → '{' ∉ b →
      process M [(k, braced m)] (a ++ braced k ++ b) = .ok (a ++ v ++ b, [])) ∧
    (∀ (k1 k2 w : Str), k1.all safeKeyChar = true → k2.all safeKeyChar = true →
      '$' ∉ w →
      replaceCustomData [(k1, braced k2), (k2, w)] (braced k1) = .ok w) := by
  constructor
  · intro M k m v fn a b hk hm hmr hmd hlook hfn hvd ha hb
    have hvald : '$' ∉ braced m := by
      intro hh
      simp only [braced, List.mem_cons, List.mem_append] at hh
      rcases hh with h1 | h1 | h1 | h1
      · exact absurd h1 (by decide)
      · exact absurd h1 (by decide)
      · exact hmd h1
      · simp at h1
    have hcd : replaceCustomData [(k, braced m)] (a ++ braced k ++ b) =
        .ok (a ++ braced m ++ b) :=
      replaceCustomData_mid k (braced m) a b hk hvald ha hb
    rw [process.eq_def, hcd]
    dsimp only
    rw [replaceBuiltInMarkers]
    rw [findMarkers_one a b m ha hb hm hmr]
    rw [processMatches.eq_def]
    dsimp only
    rw [hlook]
    dsimp only
    rw [hfn]
    dsimp only
    have hbrm : braced m = '{' :: ('{' :: (m ++ ['}', '}'])) := rfl
    rw [hbrm, replaceFirstStr_mid ('{' :: (m ++ ['}', '}'])) v a b hvd ha]
    rfl
  · intro k1 k2 w hk1 hk2 hw
    have hv1 : '$' ∉ braced k2 := noDollar_braced k2 hk2
    have h1 : replaceCustomData [(k1, braced k2)] (braced k1) = .ok (braced k2) :=
      replaceCustomData_whole k1 (braced k2) hk1 hv1
    rw [replaceCustomData_cons k1 (braced k2) (braced k1) (braced k2) [(k2, w)] h1]
    exact replaceCustomData_whole k2 w hk2 hw

/-- Witness for C10: a custom value holding the registered marker `up`
is expanded by the built-in pass of the same call. -/
theorem custom_value_builtin_expansion_witness :
    process [(strL ("up"), fun _ => Except.ok (strL ("U")))]
      [(strL ("k"), braced (strL ("up")))]
      (strL ("<") ++ braced (strL ("k")) ++ strL (">")) = .ok (strL ("<U>"), []) := by
  have h := custom_value_builtin_expansion.1
    [(strL ("up"), fun _ => Except.ok (strL ("U")))]
    (strL ("k")) (strL ("up")) (strL ("U")) (fun _ => Except.ok (strL ("U")))
    (strL ("<")) (strL (">"))
    (by decide) (by decide) (by decide) (by decide) rfl rfl
    (by decide) (by decide) (by decide)
  exact h.trans (by decide)

/-- Counterexample for C10 as stated: with data `{a:"{{b}}", b:"X"}` and
no marker registered, `process("{{a}}")` yields `X` — the value that
contained only the customData key `{{b}}` was expanded after all. -/
theorem custom_value_later_key_expanded :
    process [] [(strL ("a"), braced (strL ("b"))), (strL ("b"), strL ("X"))]
      (braced (strL ("a"))) = .ok (strL ("X"), []) ∧
    strL ("X") ≠ braced (strL ("b")) := by decide

end DocuFresh
